import Mathlib

/-!
Verification development for the trax layer-combinator core
(`trax/layers/base.py` and `trax/layers/combinators.py`).

Modelling conventions (shallow embedding):

* A tensor is an opaque value of some type `V` (for concrete evaluations we
  instantiate `V := Nat`, or use the `TVal` type with scalars and 1-D vectors
  where axis-0 slicing is needed).
* The Python data stack threaded through `Serial` is either a bare value
  (`StackVal.single v`, a tensor not wrapped in a tuple) or a tuple of values
  (`StackVal.tup l`).  This mirrors the 0/1/>1 packaging rule from
  `base.py`: 0 values are the empty tuple `tup []`, one value is bare,
  several values are a tuple.
* The `EMPTY_WEIGHTS` sentinel of `base.py` is the module-level object `()`,
  compared BY IDENTITY (`weights is EMPTY_WEIGHTS`).  We model a weights
  object as `Option W`: `none` is the unique sentinel object, `some w` is any
  other Python object, including an empty tuple that is `==` to `()` but not
  the sentinel itself.
* Operations that raise are embedded as `Except`/`Option` results; a branch
  where the Python code produces a value that is not representable as a stack
  of tensors (e.g. slicing a bare tensor with `stack[:0]`) is embedded as
  `none` and documented at the definition.
-/

namespace Trax

/-- A value on the data stack: either a bare tensor or a tuple of tensors,
as in the Python runtime. -/
inductive StackVal (V : Type) where
  | single : V → StackVal V
  | tup : List V → StackVal V
deriving DecidableEq

/-- Python `_count_items` from combinators.py: a list/tuple counts its elements,
anything else counts as one item. -/
def count_items {V : Type} : StackVal V → Nat
  | .single _ => 1
  | .tup l => l.length

/-- The elements of a stack value, top first (a bare tensor is one element). -/
def stack_list {V : Type} : StackVal V → List V
  | .single v => [v]
  | .tup l => l

/-- The spec's 0/1/>1 packaging rule applied to a span of `n` values:
a width-1 span is passed as a bare value, any other width as a tuple. -/
def packIn {V : Type} (n : Nat) (l : List V) : StackVal V :=
  if n = 1 then
    match l with
    | [v] => StackVal.single v
    | _ => StackVal.tup l
  else StackVal.tup l

/-- A sublayer as the combinators see it: declared arities plus a forward
function (the data behaviour of `_forward_internal`) from packaged inputs,
a weights slot, a state slot and an rng slot to packaged outputs and a new
state. -/
structure SLayer (V W S R : Type) where
  n_in : Nat
  n_out : Nat
  fwd : StackVal V → W → S → R → StackVal V × S

/-- A layer honours the packaging contract of `base.py`: with `n_out = 1` it
returns a bare value, otherwise a tuple of exactly `n_out` values. -/
def packagedAs {V : Type} (n : Nat) (sv : StackVal V) : Prop :=
  if n = 1 then ∃ v, sv = StackVal.single v
  else ∃ l, sv = StackVal.tup l ∧ l.length = n

/-- A contract-honouring sublayer (outputs always packaged per its `n_out`). -/
def HonestLayer {V W S R : Type} (L : SLayer V W S R) : Prop :=
  ∀ x w s r, packagedAs L.n_out (L.fwd x w s r).1

/-- Sum of the declared `n_in` over a sublayer list (`Parallel.__init__`). -/
def sum_n_in {V W S R : Type} : List (SLayer V W S R) → Nat
  | [] => 0
  | L :: ls => L.n_in + sum_n_in ls

/-- Sum of the declared `n_out` over a sublayer list (`Parallel.__init__`). -/
def sum_n_out {V W S R : Type} : List (SLayer V W S R) → Nat
  | [] => 0
  | L :: ls => L.n_out + sum_n_out ls

/-- The loop of `Serial._n_inputs_n_outputs`: thread `running_max` and
`running_total` (Python ints, so `Int` here) over the sublayers; for each
sublayer add its `n_in`, take the max, subtract its `n_out`; finally return
`(running_max, running_max - running_total)`. -/
def n_inputs_n_outputs_go {V W S R : Type} :
    List (SLayer V W S R) → Int → Int → Int × Int
  | [], runningMax, runningTotal => (runningMax, runningMax - runningTotal)
  | L :: ls, runningMax, runningTotal =>
    let t := runningTotal + L.n_in
    n_inputs_n_outputs_go ls (max runningMax t) (t - L.n_out)

/-- Source `Serial._n_inputs_n_outputs`: both running quantities start at 0. -/
def n_inputs_n_outputs {V W S R : Type} (layers : List (SLayer V W S R)) :
    Int × Int :=
  n_inputs_n_outputs_go layers 0 0

/-- The stack-height simulation exactly as the claim states it, as a fold:
the state is `(running_total, running_max)`, both starting at 0; each step
adds the sublayer's `n_in` to the total, updates the maximum with the new
total, then subtracts the sublayer's `n_out`. -/
def stack_height_sim {V W S R : Type} (layers : List (SLayer V W S R)) :
    Int × Int :=
  layers.foldl
    (fun tm L =>
      let t := tm.1 + (L.n_in : Int)
      (t - (L.n_out : Int), max tm.2 t))
    (0, 0)

/-- A constructed `Serial` combinator: the flattened sublayer list plus the
declared arities. -/
structure SerialSpec (V W S R : Type) where
  sublayers : List (SLayer V W S R)
  n_in : Nat
  n_out : Nat

/-- Source `Serial.__init__` on an already-flattened sublayer list: with no
sublayers the base-class defaults `n_in = n_out = 1` stand; otherwise both
arities come from `_n_inputs_n_outputs`. -/
def mkSerial {V W S R : Type} (layers : List (SLayer V W S R)) :
    SerialSpec V W S R :=
  match layers with
  | [] => { sublayers := [], n_in := 1, n_out := 1 }
  | L :: ls =>
    let p := n_inputs_n_outputs (L :: ls)
    { sublayers := L :: ls, n_in := p.1.toNat, n_out := p.2.toNat }

/-- Python `_inputs_from_stack(layer, stack)` from combinators.py, with `layer.n_in`
passed directly.  Faithful translation:

* a one-item tuple stack is first replaced by its bare element;
* `n_in = 1` with a one-item stack returns the bare value;
* `n_in = 1` otherwise returns `stack[0]` (`none` on an empty tuple, where
  Python raises `IndexError`);
* any other `n_in` returns the tuple slice `stack[:n_in]` — Python silently
  truncates a too-short tuple, and we keep that; but when the stack is a
  single bare tensor, Python slices the TENSOR itself (`tensor[:n_in]`),
  which is not a packaging of stack items at all: that branch is `none`. -/
def inputs_from_stack {V : Type} (n_in : Nat) (stack : StackVal V) :
    Option (StackVal V) :=
  let isOne := count_items stack = 1
  let stack1 : StackVal V :=
    match stack with
    | .tup [v] => StackVal.single v
    | s => s
  if n_in = 1 then
    if isOne then some stack1
    else
      match stack1 with
      | .tup l => l.head?.map StackVal.single
      | .single _ => none
  else
    match stack1 with
    | .tup l => some (StackVal.tup (l.take n_in))
    | .single _ => none

/-- Python `_outputs_onto_stack(layer, outputs, stack)` from combinators.py, with the
layer's arities passed directly.  When the layer consumed fewer items than the
stack holds, its outputs (wrapped into a one-tuple when `n_out = 1`) are
concatenated with the unconsumed part `stack[n_in:]`; otherwise the outputs
are returned as-is.  Branches where Python would build a nested tuple (a
tuple output wrapped again) or concatenate a tuple with a bare tensor are not
representable as a stack of tensors and are embedded as `none`. -/
def outputs_onto_stack {V : Type} (n_in n_out : Nat) (outputs : StackVal V)
    (stack : StackVal V) : Option (StackVal V) :=
  if n_in < count_items stack then
    let outItems : Option (List V) :=
      if n_out = 1 then
        match outputs with
        | .single v => some [v]
        | .tup _ => none
      else
        match outputs with
        | .tup l => some l
        | .single _ => none
    match stack, outItems with
    | .tup l, some o => some (StackVal.tup (o ++ l.drop n_in))
    | _, _ => none
  else some outputs

/-- One iteration of the `Serial.forward_with_state` loop: extract the
sublayer's inputs from the stack, run the sublayer, splice its outputs back
onto the stack, and keep its new state. -/
def serialStep {V W S R : Type} (L : SLayer V W S R) (w : W) (s : S) (r : R)
    (stack : StackVal V) : Option (StackVal V × S) :=
  match inputs_from_stack L.n_in stack with
  | none => none
  | some inputs =>
    let res := L.fwd inputs w s r
    match outputs_onto_stack L.n_in L.n_out res.1 stack with
    | none => none
    | some stack2 => some (stack2, res.2)

/-- The errors `Serial.forward_with_state` can raise, plus `stackFault` for
the stack states our embedding marks unrepresentable (`none` above). -/
inductive SerialErr where
  | inputNotTuple
  | tooFewInputs
  | weightsLength
  | stateLength
  | stackFault
deriving DecidableEq

/-- Source `Serial._validate_forward_inputs`: a non-tuple input with declared
`n_in ≠ 1` is a `TypeError`; an input with fewer than `n_in` items is a
`ValueError` (a bare tensor counts as one item). -/
def serial_validate_inputs {V : Type} (n_in : Nat) (xs : StackVal V) :
    Option SerialErr :=
  match xs with
  | .single _ =>
    if n_in ≠ 1 then some SerialErr.inputNotTuple
    else if 1 < n_in then some SerialErr.tooFewInputs
    else none
  | .tup l => if l.length < n_in then some SerialErr.tooFewInputs else none

/-- The main loop of `Serial.forward_with_state`: `zip` over sublayers and
their weight/state/rng slots (`zip` truncates at the shortest list, as in
Python), threading the stack and collecting the new states. -/
def serialGo {V W S R : Type} :
    List (SLayer V W S R) → List W → List S → List R → StackVal V →
    Except SerialErr (StackVal V × List S)
  | L :: ls, w :: ws, s :: ss, r :: rs, stack =>
    match serialStep L w s r stack with
    | none => Except.error SerialErr.stackFault
    | some (stack2, s2) =>
      match serialGo ls ws ss rs stack2 with
      | Except.error e => Except.error e
      | Except.ok (stackF, sts) => Except.ok (stackF, s2 :: sts)
  | _, _, _, _, stack => Except.ok (stack, [])

/-- Source `Serial.forward_with_state`: validate the inputs; an empty `Serial` is
the identity on `(xs, state)`; with more than one sublayer, a weights or
state sequence whose length differs from the sublayer count raises a
`ValueError` before any sublayer runs; then the stack loop. -/
def serial_forward_with_state {V W S R : Type} (sl : SerialSpec V W S R)
    (xs : StackVal V) (ws : List W) (ss : List S) (rs : List R) :
    Except SerialErr (StackVal V × List S) :=
  match serial_validate_inputs sl.n_in xs with
  | some e => Except.error e
  | none =>
    match sl.sublayers with
    | [] => Except.ok (xs, ss)
    | L :: ls =>
      if (L :: ls).length ≠ 1 ∧ ws.length ≠ (L :: ls).length then
        Except.error SerialErr.weightsLength
      else if (L :: ls).length ≠ 1 ∧ ss.length ≠ (L :: ls).length then
        Except.error SerialErr.stateLength
      else serialGo (L :: ls) ws ss rs xs

/-- Construction errors of `Parallel._validate`. -/
inductive ParallelErr where
  | tooFewSublayers
  | zeroInputSublayer
deriving DecidableEq

/-- A constructed `Parallel` combinator. -/
structure ParallelSpec (V W S R : Type) where
  sublayers : List (SLayer V W S R)
  n_in : Nat
  n_out : Nat

/-- Source `Parallel.__init__` over an already-wrapped sublayer list: fewer than two
sublayers or any sublayer with `n_in = 0` is a `ValueError`; otherwise the
arities are the sums of the sublayers' arities. -/
def mkParallel {V W S R : Type} (layers : List (SLayer V W S R)) :
    Except ParallelErr (ParallelSpec V W S R) :=
  if layers.length < 2 then Except.error ParallelErr.tooFewSublayers
  else if layers.any (fun L => L.n_in == 0) then
    Except.error ParallelErr.zeroInputSublayer
  else Except.ok { sublayers := layers, n_in := sum_n_in layers,
                   n_out := sum_n_out layers }

/-- Source `Parallel._allot_to_sublayers`, keeping the running index `start` into
the original input tuple: a sublayer with `n_in = 1` gets the bare item
`inputs[start]` (`none` on an out-of-range index, where Python raises
`IndexError`); any other sublayer gets the tuple slice
`inputs[start:start+n_in]` (which Python silently truncates). -/
def allot_from {V W S R : Type} :
    List (SLayer V W S R) → List V → Nat → Option (List (StackVal V))
  | [], _, _ => some []
  | L :: rest, inputs, start =>
    match (if L.n_in = 1 then (inputs.get? start).map StackVal.single
           else some (StackVal.tup ((inputs.drop start).take L.n_in))),
          allot_from rest inputs (start + L.n_in) with
    | some p, some ps => some (p :: ps)
    | _, _ => none

/-- The `outputs.append(sub_outputs)` / `outputs.extend(sub_outputs)` choice
in `Parallel.forward_with_state`: a sublayer with `n_out = 1` has its bare
output appended as one item, any other sublayer has its output tuple
extended onto the list (`none` where a contract-violating output would make
Python nest a tuple inside the flat output list, or iterate a bare tensor). -/
def out_items {V : Type} (n_out : Nat) (sv : StackVal V) : Option (List V) :=
  if n_out = 1 then
    match sv with
    | .single v => some [v]
    | .tup _ => none
  else
    match sv with
    | .tup l => some l
    | .single _ => none

/-- The collection loop of `Parallel.forward_with_state`: run each sublayer
on its allotted inputs with its own weight/state/rng slot and collect the
flat output list and the new states. -/
def parLoop {V W S R : Type} :
    List (SLayer V W S R) → List (StackVal V) → List W → List S → List R →
    Option (List V × List S)
  | L :: ls, x :: xs, w :: ws, s :: ss, r :: rs =>
    match out_items L.n_out (L.fwd x w s r).1, parLoop ls xs ws ss rs with
    | some o, some (os, sts) => some (o ++ os, (L.fwd x w s r).2 :: sts)
    | _, _ => none
  | _, _, _, _, _ => some ([], [])

/-- Source `Parallel.forward_with_state`: allot the inputs, check the `assert`ed
lengths, run the loop, then package the concatenated outputs — `outputs[0]`
when the combinator declares `n_out = 1`, the full tuple otherwise. -/
def parallel_forward_with_state {V W S R : Type}
    (layers : List (SLayer V W S R)) (inputs : List V) (ws : List W)
    (ss : List S) (rs : List R) : Option (StackVal V × List S) :=
  match allot_from layers inputs 0 with
  | none => none
  | some subIns =>
    if subIns.length = layers.length ∧ ws.length = layers.length ∧
        ss.length = layers.length ∧ rs.length = layers.length then
      match parLoop layers subIns ws ss rs with
      | none => none
      | some (outs, sts) =>
        if sum_n_out layers = 1 then
          (outs.head?).map (fun v => (StackVal.single v, sts))
        else some (StackVal.tup outs, sts)
    else none

/-- The claim's partition of a flat input list into contiguous spans sized by
each sublayer's `n_in`, each span packaged by the 0/1/>1 rule (a width-1 span
is a bare value).  This follows the spec's words, for comparison with
`allot_from`. -/
def span_partition {V W S R : Type} :
    List (SLayer V W S R) → List V → List (StackVal V)
  | [], _ => []
  | L :: ls, inputs =>
    packIn L.n_in (inputs.take L.n_in) :: span_partition ls (inputs.drop L.n_in)

/-- The claim's description of the `Parallel` forward pass, following the
spec's words: apply each sublayer independently to its contiguous span with
its own weight/state/rng slot and concatenate the raw outputs in sublayer
order, collecting the new states. -/
def parallel_claimed_apply {V W S R : Type} :
    List (SLayer V W S R) → List V → List W → List S → List R →
    List V × List S
  | L :: ls, inputs, w :: ws, s :: ss, r :: rs =>
    (stack_list (L.fwd (packIn L.n_in (inputs.take L.n_in)) w s r).1
       ++ (parallel_claimed_apply ls (inputs.drop L.n_in) ws ss rs).1,
     (L.fwd (packIn L.n_in (inputs.take L.n_in)) w s r).2
       :: (parallel_claimed_apply ls (inputs.drop L.n_in) ws ss rs).2)
  | _, _, _, _, _ => ([], [])

/-- A JAX PRNG key, symbolically: either the deterministic key derived from
an integer seed (`backend.random.get_prng(seed)`), or the `i`-th of the `n`
keys produced by `backend.random.split(parent, n)`.  Distinct constructor
applications model the collaborator's guarantee that split keys are fresh and
pairwise distinct. -/
inductive RngKey where
  | prng : Nat → RngKey
  | split : RngKey → Nat → Nat → RngKey
deriving DecidableEq

/-- The `_rng` fields of a layer tree: every node carries its seed-cursor
(`none` until seeded) and its sublayers. -/
inductive RngTree where
  | node : Option RngKey → List RngTree → RngTree

/-- The seed-cursor at a tree's root. -/
def root_rng : RngTree → Option RngKey
  | .node r _ => r

/-- The direct sublayers of a tree node. -/
def child_trees : RngTree → List RngTree
  | .node _ cs => cs

/-- The child-assignment loop of `Layer._set_rng_recursive`: the `i`-th of
`n` direct sublayers gets `split(rng, n)[i]` written into its own `_rng`
field; the sublayer's own subtree is NOT visited. -/
def assign_child_rngs (k : RngKey) (n : Nat) : Nat → List RngTree → List RngTree
  | _, [] => []
  | i, RngTree.node _ gcs :: rest =>
    RngTree.node (some (RngKey.split k n i)) gcs ::
      assign_child_rngs k n (i + 1) rest

/-- Source `Layer._set_rng_recursive(rng)`: set this layer's `_rng`, then (when
there are sublayers) split the key into `len(sublayers)` pieces and write one
into each direct sublayer's `_rng` field.  Grandchildren are untouched. -/
def set_rng_recursive (t : RngTree) (k : RngKey) : RngTree :=
  match t with
  | .node _ cs => RngTree.node (some k) (assign_child_rngs k cs.length 0 cs)

mutual

/-- The rng-seeding effect of `Layer.init` over a whole tree: a node whose
`_rng` is still `None` derives a root seed (`get_prng(0)` when no rng
argument is supplied) and runs `_set_rng_recursive`; a node already seeded
skips that step.  Either way, `new_weights_and_state` then recursively calls
`init` on every sublayer WITHOUT an rng argument.  `initChildren` fuses the
parent's child-seed assignment with the child's own subsequent `init` (whose
seeding step is skipped because its `_rng` was just set). -/
def initRngSeeding : RngTree → Option RngKey → RngTree
  | RngTree.node (some k0) cs, _ =>
    RngTree.node (some k0) (initRngSeedingList cs)
  | RngTree.node none cs, rng =>
    let k := rng.getD (RngKey.prng 0)
    RngTree.node (some k) (initChildren k cs.length 0 cs)

def initChildren : RngKey → Nat → Nat → List RngTree → List RngTree
  | _, _, _, [] => []
  | k, n, i, RngTree.node _ gcs :: rest =>
    RngTree.node (some (RngKey.split k n i)) (initRngSeedingList gcs) ::
      initChildren k n (i + 1) rest

def initRngSeedingList : List RngTree → List RngTree
  | [] => []
  | c :: cs => initRngSeeding c none :: initRngSeedingList cs

end

mutual

/-- The seed assignment the claim describes, following the spec's words:
every node receives a seed derived by splitting from the root seed — each
node with seed `k` gives its `i`-th of `n` direct children the seed
`split(k, n)[i]`, at every depth. -/
def claimedSeeds : RngKey → RngTree → RngTree
  | k, RngTree.node _ cs =>
    RngTree.node (some k) (claimedChildSeeds k cs.length 0 cs)

def claimedChildSeeds : RngKey → Nat → Nat → List RngTree → List RngTree
  | _, _, _, [] => []
  | k, n, i, c :: rest =>
    claimedSeeds (RngKey.split k n i) c :: claimedChildSeeds k n (i + 1) rest

end

/-- A `Layer` instance as `base.py` holds it: the mutable fields
(`_init_finished`, cached `_weights`, cached `_state`, `_rng`) plus the
layer-specific behaviour (`forward_with_state` as `fwd`, and
`new_weights_and_state` as a function of the input signature).  A weights
object is `Option W`: `none` is the module-level `EMPTY_WEIGHTS` sentinel
(identity-compared), `some w` any other object. -/
structure LayerInst (V W S Sig : Type) where
  fwd : StackVal V → Option W → S → Option RngKey → StackVal V × S
  new_weights_and_state : Sig → Option W × S
  init_finished : Bool
  cached_weights : Option W
  cached_state : S
  rng : Option RngKey

/-- Source `Layer._forward_internal(x, weights, state, rng)`: if the supplied
weights object IS the `EMPTY_WEIGHTS` sentinel, the cached weights are used
and the cache is untouched; any other weights object (even an empty tuple
merely equal to the sentinel) is used as the weights AND written into the
cache.  The cached state is always overwritten with the new state returned by
the forward computation.  Returns `((outputs, new_state), updated instance)`. -/
def forward_internal {V W S Sig : Type} (inst : LayerInst V W S Sig)
    (x : StackVal V) (weights : Option W) (state : S) (rng : Option RngKey) :
    (StackVal V × S) × LayerInst V W S Sig :=
  let w : Option W :=
    match weights with
    | none => inst.cached_weights
    | some wv => some wv
  let inst1 : LayerInst V W S Sig :=
    match weights with
    | none => inst
    | some wv => { inst with cached_weights := some wv }
  let res := inst.fwd x w state rng
  ((res.1, res.2), { inst1 with cached_state := res.2 })

/-- Source `Layer.init(input_signature, rng)` at the instance level: if `_rng` is
still `None`, seed it (with `get_prng(0)` when no rng is supplied); then
ALWAYS recompute `(weights, state)` from `new_weights_and_state`; on the
first call latch `_init_finished`, cache both and return them; on any later
call return `(EMPTY_WEIGHTS, state)` with the caches untouched. -/
def layer_init {V W S Sig : Type} (inst : LayerInst V W S Sig) (sig : Sig)
    (rng : Option RngKey) : (Option W × S) × LayerInst V W S Sig :=
  let inst1 : LayerInst V W S Sig :=
    if inst.rng.isNone then
      { inst with rng := some (rng.getD (RngKey.prng 0)) }
    else inst
  let ws := inst1.new_weights_and_state sig
  if inst1.init_finished then ((none, ws.2), inst1)
  else
    ((ws.1, ws.2),
     { inst1 with init_finished := true, cached_weights := ws.1,
                  cached_state := ws.2 })

/-- Errors raised on the `Select` forward path: the decorator's
`_validate_forward_input` (`TypeError` for a non-tuple input when
`n_in ≠ 1`, `ValueError` for a tuple whose length differs from `n_in`) and
`IndexError` from `xs[i]`. -/
inductive SelectErr where
  | inputNotTuple
  | inputLength
  | indexError
deriving DecidableEq

/-- Python `max(idxs)` for a list of non-negative indices (Python's `max` on a
non-empty list; on `[]` Python raises, which `mkSelect` reflects). -/
def maxIdx (idxs : List Nat) : Nat := idxs.foldl max 0

/-- The arities `Select(idxs)` declares when `n_in` is not overridden:
`n_in = max(idxs) + 1`, `n_out = len(idxs)`; `none` for an empty index list,
where `max(idxs)` raises at construction. -/
def mkSelect (idxs : List Nat) : Option (Nat × Nat) :=
  match idxs with
  | [] => none
  | _ => some (maxIdx idxs + 1, idxs.length)

/-- Python `tuple(xs[i] for i in idxs)`: look up each index in turn, `none` as soon
as one is out of range (Python's `IndexError`). -/
def select_items {V : Type} (l : List V) : List Nat → Option (List V)
  | [] => some []
  | i :: is =>
    match l.get? i, select_items l is with
    | some v, some vs => some (v :: vs)
    | _, _ => none

/-- The body of the `Selection` function inside `Select`: a bare (non-tuple)
input is wrapped into a one-tuple, then the output is
`tuple(xs[i] for i in idxs)` (`IndexError` when an index is out of range). -/
def selection {V : Type} (idxs : List Nat) (xs : StackVal V) :
    Except SelectErr (List V) :=
  match select_items (stack_list xs) idxs with
  | some r => Except.ok r
  | none => Except.error SelectErr.indexError

/-- Applying a `Select(idxs)` layer built by the `@base.layer` decorator with
declared arity `n_in`: `_validate_forward_input` runs first (skipped when
`n_in = 1`), then the `Selection` body.  The raw output tuple is returned
as-is (the decorator only replaces a `None`/empty output by `()`). -/
def selectApply {V : Type} (idxs : List Nat) (n_in : Nat) (xs : StackVal V) :
    Except SelectErr (List V) :=
  if n_in ≠ 1 then
    match xs with
    | .single _ => Except.error SelectErr.inputNotTuple
    | .tup l =>
      if l.length ≠ n_in then Except.error SelectErr.inputLength
      else selection idxs (StackVal.tup l)
  else selection idxs xs

/-- A tensor value for the `Scan` model: a scalar or a 1-D vector (enough
for axis-0 scanning of the claim's example). -/
inductive TVal where
  | int : Int → TVal
  | vec : List Int → TVal
deriving DecidableEq

/-- The slice of a tensor at position `i` of axis 0: a vector yields its
`i`-th scalar.  (A scalar has no axis 0; that branch is junk and unused.) -/
def sliceAt (i : Nat) : TVal → TVal
  | .vec l => TVal.int (l.getD i 0)
  | .int n => TVal.int n

/-- The scalar held by a `TVal` (junk 0 for a vector; unused). -/
def unInt : TVal → Int
  | .int n => n
  | .vec _ => 0

/-- The length of axis 0 of the first tensor in a tuple (the number of scan
steps). -/
def axisLen (xs : List TVal) : Nat :=
  match xs.head? with
  | some (.vec l) => l.length
  | _ => 0

/-- The iteration of the backend scan: at step `i` the function receives the
axis-0 slices of all scanned inputs plus the carried accumulator, and its
per-step outputs are collected in order. -/
def scanGo {St : Type}
    (f : List TVal → List TVal × St → List TVal × (List TVal × St))
    (xs : List TVal) : Nat → Nat → List TVal × St →
    List (List TVal) × (List TVal × St)
  | 0, _, acc => ([], acc)
  | k + 1, i, acc =>
    let step := f (xs.map (sliceAt i)) acc
    let rest := scanGo f xs k (i + 1) step.2
    (step.1 :: rest.1, rest.2)

/-- Stack the per-step output tuples back along axis 0: the `j`-th collected
output becomes a vector of the `j`-th scalars of every step. -/
def stackSteps (rows : List (List TVal)) : List TVal :=
  (List.range (rows.headD []).length).map
    (fun j => TVal.vec (rows.map (fun row => unInt (row.getD j (TVal.int 0)))))

/-- Modelled from the spec: `backend.scan` is supplied by the external
numeric collaborator (not under src/); per the spec's interface it folds the
function over axis 0 of the scanned inputs, threading the carried state and
collecting per-step outputs, returning the stacked outputs plus the final
carry.  Modelled here for axis 0, which is what the claim exercises. -/
def backend_scan {St : Type}
    (f : List TVal → List TVal × St → List TVal × (List TVal × St))
    (xs : List TVal) (init : List TVal × St) :
    List TVal × (List TVal × St) :=
  let r := scanGo f xs (axisLen xs) 0 init
  (stackSteps r.1, r.2)

/-- Source `Scan.forward_with_state` from combinators.py: split the input tuple into
scanned inputs and the trailing `n_carry` carry items, scan the wrapped
sublayer with `scannable_fn` (which feeds `x + carry` to the sublayer and
splits its result back into per-step outputs and the new carry), then put the
stacked outputs and the final carry back on the stack.  The sublayer is given
as its raw tuple-to-tuple forward function with its weights and state; the
`take`/`drop` splits translate Python's `res[:-n_carry]`/`res[-n_carry:]`
(they agree for `n_carry ≥ 1`, the only values the claim uses). -/
def scan_forward_with_state {W St : Type}
    (subFwd : List TVal → W → St → List TVal × St) (w : W) (n_carry : Nat)
    (inputs : List TVal) (state : St) : List TVal × St :=
  let f : List TVal → List TVal × St → List TVal × (List TVal × St) :=
    fun x cs =>
      let r := subFwd (x ++ cs.1) w cs.2
      (r.1.take (r.1.length - n_carry),
       (r.1.drop (r.1.length - n_carry), r.2))
  let xs := inputs.take (inputs.length - n_carry)
  let init := (inputs.drop (inputs.length - n_carry), state)
  let r := backend_scan f xs init
  (r.1 ++ r.2.1, r.2.2)

/-- The accumulate-sum sublayer of the claim: two inputs `(input, carry)`,
two outputs `(res, res)` with `res = input + carry`; no weights, no state. -/
def addSublayerFwd : List TVal → Unit → Unit → List TVal × Unit :=
  fun xs _ _ =>
    match xs with
    | [TVal.int a, TVal.int b] => ([TVal.int (a + b), TVal.int (a + b)], ())
    | _ => ([], ())

/-- The seed-cursor sitting on the first grandchild of a tree (used to probe
depth-2 seeding). -/
def grandSeed (t : RngTree) : Option RngKey :=
  root_rng
    ((child_trees ((child_trees t).headD (RngTree.node none []))).headD
      (RngTree.node none []))

/-- A concrete sublayer with the given arities whose forward is the identity
on the stack value (used in arity-only witnesses). -/
def dummyLayer (nin nout : Nat) : SLayer Nat Nat Nat Nat :=
  { n_in := nin, n_out := nout, fwd := fun x _ s _ => (x, s) }

/-- A concrete contract-honouring one-input one-output sublayer. -/
def honestOne : SLayer Nat Nat Nat Nat :=
  { n_in := 1, n_out := 1,
    fwd := fun x w s _ => (StackVal.single (count_items x + w), s + 1) }

/-- A concrete contract-honouring two-input two-output sublayer. -/
def honestTwo : SLayer Nat Nat Nat Nat :=
  { n_in := 2, n_out := 2,
    fwd := fun x w s _ => (StackVal.tup [w, count_items x], s + 2) }

/-- A concrete uninitialized layer instance (used as an `init` witness). -/
def sampleInst : LayerInst Nat Nat Nat Nat :=
  { fwd := fun x _ s _ => (x, s)
    new_weights_and_state := fun sig => (some sig, sig + 1)
    init_finished := false
    cached_weights := none
    cached_state := 0
    rng := none }

/-- A concrete initialized layer instance with cached weights `some 5` and
cached state `0` (used to probe cache mutation on forward). -/
def probeInst : LayerInst Nat Nat Nat Nat :=
  { fwd := fun x _ s _ => (x, s + 1)
    new_weights_and_state := fun _ => (none, 0)
    init_finished := true
    cached_weights := some 5
    cached_state := 0
    rng := none }

/-- A depth-2 chain of three unseeded layers (root, child, grandchild). -/
def depthTwoChain : RngTree :=
  RngTree.node none [RngTree.node none [RngTree.node none []]]

/-!
Theorems.  Each claim of the specification is settled by exactly one named
theorem below (with a witness where the theorem carries hypotheses);
auxiliary lemmas are shared.
-/

/-- Claim C3 (code bug): during a `Serial` forward pass each sublayer is
supposed to receive exactly `n_in` items off the top of the stack, packaged
by the 0/1/>1 rule (so a 0-input sublayer receives the empty tuple, as
`base.py`'s packaging contract and `_validate_forward_input` require).  When
the stack holds two or more items `_inputs_from_stack` indeed yields the
empty tuple for `n_in = 0` (third conjunct), but when the stack is a single
item the code computes `stack[:0]` on a bare tensor — a slice of the tensor,
not the empty tuple — which the embedding marks `none` (first two
conjuncts): the code contradicts its own packaging contract there. -/
theorem serial_zero_input_single_stack_bug :
    inputs_from_stack 0 (StackVal.single (0 : Nat)) = none
  ∧ inputs_from_stack 0 (StackVal.tup [(0 : Nat)]) = none
  ∧ inputs_from_stack 0 (StackVal.tup [(0 : Nat), 1]) = some (StackVal.tup []) := by
  decide

/-- Claim C9: `Scan` over axis 0 with `n_carry = 1` wrapping the two-input
two-output accumulate-sum sublayer, applied to the input tensor `[1, 2, 3]`
with initial carry `0`, returns `([1, 3, 6], 6)` (with the backend scan
primitive modelled from the spec's interface). -/
theorem scan_add_prefix_sums :
    scan_forward_with_state addSublayerFwd () 1 [TVal.vec [1, 2, 3], TVal.int 0] ()
      = ([TVal.vec [1, 3, 6], TVal.int 6], ()) := by
  decide

/-- Claim C7, counterexample: the claim says a forward pass with explicitly
supplied weights and state leaves the instance's cached weights and cached
state unchanged.  On the concrete instance `probeInst` (cached weights
`some 5`, cached state `0`), calling `_forward_internal` with explicit
weights `some 6` and state `10` changes the cached weights to `some 6` and
the cached state to `11`. -/
theorem forward_internal_cache_counterexample :
    (forward_internal probeInst (StackVal.single 1) (some 6) 10 none).2.cached_weights
        ≠ probeInst.cached_weights
  ∧ (forward_internal probeInst (StackVal.single 1) (some 6) 10 none).2.cached_state
        ≠ probeInst.cached_state := by
  decide

/-- Claim C7 as amended: a forward pass with an explicitly supplied
(non-sentinel) weights object overwrites the instance's cached weights with
that object, and the cached state is always overwritten with the new state
returned by the forward computation (also when the weights argument is the
`EMPTY_WEIGHTS` sentinel). -/
theorem forward_internal_overwrites_cache {V W S Sig : Type}
    (inst : LayerInst V W S Sig) (x : StackVal V) (wv : W) (st : S)
    (r : Option RngKey) :
    (forward_internal inst x (some wv) st r).2.cached_weights = some wv
  ∧ (forward_internal inst x (some wv) st r).2.cached_state
      = (inst.fwd x (some wv) st r).2
  ∧ (forward_internal inst x none st r).2.cached_state
      = (inst.fwd x inst.cached_weights st r).2 := by
  refine ⟨rfl, rfl, rfl⟩

/-- Claim C10: `_forward_internal` decides whether to substitute the cached
weights by object identity with the `EMPTY_WEIGHTS` sentinel (`none` in the
embedding): called with the sentinel it computes with the cached weights and
leaves the cache unchanged; called with any other weights object it computes
with and caches that object.  The second conjunct instantiates "any other
value" at an empty tuple (`some []`) that is structurally empty yet distinct
from the sentinel: it is cached all the same. -/
theorem forward_internal_sentinel_by_identity :
    (∀ (V W S Sig : Type) (inst : LayerInst V W S Sig) (x : StackVal V)
        (st : S) (r : Option RngKey),
      (forward_internal inst x none st r).1 = inst.fwd x inst.cached_weights st r
      ∧ (forward_internal inst x none st r).2.cached_weights = inst.cached_weights
      ∧ ∀ wv : W,
          (forward_internal inst x (some wv) st r).1 = inst.fwd x (some wv) st r
          ∧ (forward_internal inst x (some wv) st r).2.cached_weights = some wv)
  ∧ (∀ (inst : LayerInst Nat (List Unit) Nat Nat) (x : StackVal Nat) (st : Nat)
        (r : Option RngKey),
      (forward_internal inst x (some []) st r).2.cached_weights = some []
      ∧ some ([] : List Unit) ≠ (none : Option (List Unit))) := by
  constructor
  · intro V W S Sig inst x st r
    exact ⟨rfl, rfl, fun wv => ⟨rfl, rfl⟩⟩
  · intro inst x st r
    exact ⟨rfl, by simp⟩

/-- Claim C4: the first `init` on a never-initialized instance returns
exactly the freshly computed `(weights, state)` pair from
`new_weights_and_state` and latches `_init_finished`; any `init` on an
already-latched instance (any signature, any rng) returns the
`EMPTY_WEIGHTS` sentinel paired with a freshly recomputed state for that
signature, and the latch stays set. -/
theorem layer_init_latch {V W S Sig : Type} (inst inst2 : LayerInst V W S Sig)
    (sig sig2 : Sig) (rng0 rng2 : Option RngKey)
    (h : inst.init_finished = false) (h2 : inst2.init_finished = true) :
    (layer_init inst sig rng0).1 = inst.new_weights_and_state sig
  ∧ (layer_init inst sig rng0).2.init_finished = true
  ∧ (layer_init inst2 sig2 rng2).1
      = (none, (inst2.new_weights_and_state sig2).2)
  ∧ (layer_init inst2 sig2 rng2).2.init_finished = true := by
  unfold layer_init
  by_cases hr : inst.rng.isNone <;> by_cases hr2 : inst2.rng.isNone <;>
    simp [hr, hr2, h, h2]

/-- Claim C4, witness: on the concrete `sampleInst` the first call latches
and returns the computed pair, and on the resulting instance a later call
with a different signature returns the sentinel plus fresh state. -/
theorem layer_init_latch_witness :
    (layer_init sampleInst 5 none).1 = sampleInst.new_weights_and_state 5
  ∧ (layer_init sampleInst 5 none).2.init_finished = true
  ∧ (layer_init (layer_init sampleInst 5 none).2 7 none).1
      = (none, ((layer_init sampleInst 5 none).2.new_weights_and_state 7).2)
  ∧ (layer_init (layer_init sampleInst 5 none).2 7 none).2.init_finished = true :=
  layer_init_latch sampleInst (layer_init sampleInst 5 none).2 5 7 none none
    rfl rfl

/-- The root `_rng` written into the `j`-th sublayer by the child-seeding
pass of `init` is the `(i0 + j)`-th split piece. -/
theorem root_initChildren_getD (k : RngKey) (n : Nat) :
    ∀ (cs : List RngTree) (i0 j : Nat) (d : RngTree), j < cs.length →
      root_rng ((initChildren k n i0 cs).getD j d)
        = some (RngKey.split k n (i0 + j)) := by
  intro cs
  induction cs with
  | nil => intro i0 j d h; simp at h
  | cons c rest ih =>
    intro i0 j d h
    cases c with
    | node r gcs =>
      cases j with
      | zero => simp [initChildren, root_rng]
      | succ j =>
        have hj : j < rest.length := by simpa using h
        have harith : i0 + 1 + j = i0 + (j + 1) := by omega
        rw [initChildren, List.getD_cons_succ, ih (i0 + 1) j d hj, harith]

/-- Claim C6, counterexample: on a depth-2 chain of never-seeded layers, the
claim says the grandchild's seed is derived by splitting from the root seed
(so `split(split(root, 1)[0], 1)[0]`); the code's seeding pass leaves the
grandchild unseeded until its own `init` runs without an rng argument, and
it then self-seeds with the fixed default `get_prng(0)`.  The two seed
assignments differ. -/
theorem init_rng_depth_two_counterexample :
    initRngSeeding depthTwoChain (some (RngKey.prng 7))
      ≠ claimedSeeds (RngKey.prng 7) depthTwoChain := by
  intro h
  have h2 := congrArg grandSeed h
  simp [depthTwoChain, grandSeed, initRngSeeding, initChildren,
        initRngSeedingList, claimedSeeds, claimedChildSeeds, child_trees,
        root_rng] at h2

/-- Claim C6 as amended: `init` on a never-seeded root derives a root seed
(the fixed default `get_prng(0)` when none is supplied) and splits it into
exactly `len(sublayers)` pieces, one per direct child — but only the DIRECT
children receive split seeds; a deeper descendant that is still unseeded
when its own `init` runs derives the fixed default seed instead of a split
of the root seed (third conjunct: a never-seeded node initialized without an
rng argument roots itself at `get_prng(0)`). -/
theorem init_rng_direct_children_only (k : RngKey) (cs gcs : List RngTree)
    (i : Nat) (hi : i < cs.length) :
    root_rng (initRngSeeding (RngTree.node none cs) (some k)) = some k
  ∧ root_rng
      ((child_trees (initRngSeeding (RngTree.node none cs) (some k))).getD i
        (RngTree.node none []))
      = some (RngKey.split k cs.length i)
  ∧ root_rng (initRngSeeding (RngTree.node none gcs) none)
      = some (RngKey.prng 0) := by
  refine ⟨?_, ?_, ?_⟩
  · simp [initRngSeeding, root_rng]
  · have h := root_initChildren_getD k cs.length cs 0 i (RngTree.node none []) hi
    simpa [initRngSeeding, child_trees] using h
  · simp [initRngSeeding, root_rng]

/-- Claim C6, witness: a root with one unseeded child, seeded from
`get_prng(7)`: the root keeps the seed, the child gets split piece 0 of 1,
and a never-seeded node initialized without an rng roots at `get_prng(0)`. -/
theorem init_rng_direct_children_only_witness :
    root_rng (initRngSeeding (RngTree.node none [RngTree.node none []])
        (some (RngKey.prng 7)))
      = some (RngKey.prng 7)
  ∧ root_rng
      ((child_trees (initRngSeeding (RngTree.node none [RngTree.node none []])
          (some (RngKey.prng 7)))).getD 0 (RngTree.node none []))
      = some (RngKey.split (RngKey.prng 7) 1 0)
  ∧ root_rng (initRngSeeding (RngTree.node none []) none)
      = some (RngKey.prng 0) :=
  init_rng_direct_children_only (RngKey.prng 7) [RngTree.node none []] [] 0
    (by decide)

/-- Every member of a non-negative index list is bounded by the running
`foldl max`. -/
theorem foldl_max_le (idxs : List Nat) :
    ∀ a : Nat, a ≤ idxs.foldl max a ∧ ∀ i ∈ idxs, i ≤ idxs.foldl max a := by
  induction idxs with
  | nil => intro a; simp
  | cons x xs ih =>
    intro a
    refine ⟨le_trans (le_max_left a x) (ih (max a x)).1, ?_⟩
    intro i hi
    rcases List.mem_cons.mp hi with h | h
    · exact le_trans (h ▸ le_max_right a x) (ih (max a x)).1
    · exact (ih (max a x)).2 i h

/-- Any index occurring in `idxs` is at most `max(idxs)`. -/
theorem le_maxIdx_of_mem {i : Nat} {idxs : List Nat} (h : i ∈ idxs) :
    i ≤ maxIdx idxs :=
  (foldl_max_le idxs 0).2 i h

/-- With every index in range, `select_items` returns exactly the indexed
elements. -/
theorem select_items_eq_map {V : Type} (d : V) :
    ∀ (idxs : List Nat) (l : List V), (∀ i ∈ idxs, i < l.length) →
      select_items l idxs = some (idxs.map fun i => l.getD i d) := by
  intro idxs
  induction idxs with
  | nil => intro l h; simp [select_items]
  | cons i is ih =>
    intro l h
    have hi : i < l.length := h i (List.mem_cons_self i is)
    have hget : l.get? i = some (l.getD i d) := by
      cases hv : l.get? i with
      | none => exact absurd (List.get?_eq_none.mp hv) (by omega)
      | some v => rw [List.getD_eq_get?, hv]; rfl
    have hrest := ih l (fun j hj => h j (List.mem_cons_of_mem i hj))
    simp only [select_items]
    rw [hget, hrest]
    rfl

/-- Claim C5, counterexample: the claim quantifies over input tuples with AT
LEAST `max(idxs) + 1` elements; the layer built by `Select([1, 0])` declares
`n_in = 2` (per `mkSelect`), and the decorator's `_validate_forward_input`
rejects a 3-tuple outright instead of returning `(xs[1], xs[0])`. -/
theorem select_longer_input_rejected :
    mkSelect [1, 0] = some (2, 2)
  ∧ selectApply [1, 0] 2 (StackVal.tup [(10 : Nat), 20, 30])
      = Except.error SelectErr.inputLength
  ∧ selectApply [1, 0] 2 (StackVal.tup [(10 : Nat), 20, 30])
      ≠ Except.ok [20, 10] := by
  refine ⟨rfl, rfl, ?_⟩
  intro h
  have h2 : Except.error SelectErr.inputLength
      = (Except.ok [20, 10] : Except SelectErr (List Nat)) :=
    (rfl : selectApply [1, 0] 2 (StackVal.tup [(10 : Nat), 20, 30])
      = Except.error SelectErr.inputLength).symm.trans h
  exact Except.noConfusion h2

/-- Claim C5 as amended: for every non-empty index list and every input
tuple with EXACTLY `max(idxs) + 1` elements, `Select(idxs)` (with `n_in` not
overridden) declares `n_in = max(idxs) + 1` and `n_out = len(idxs)`, and
applying it returns `tuple(xs[i] for i in idxs)`; longer tuples are rejected
by the decorator's input-length validation whenever `n_in ≠ 1`. -/
theorem select_apply_exact_arity {V : Type} (idxs : List Nat) (xs : List V)
    (d : V) (h1 : idxs ≠ []) (h2 : xs.length = maxIdx idxs + 1) :
    mkSelect idxs = some (maxIdx idxs + 1, idxs.length)
  ∧ selectApply idxs (maxIdx idxs + 1) (StackVal.tup xs)
      = Except.ok (idxs.map fun i => xs.getD i d) := by
  have hmem : ∀ i ∈ idxs, i < xs.length := by
    intro i hi
    have := le_maxIdx_of_mem hi
    omega
  have hsel : selection idxs (StackVal.tup xs)
      = Except.ok (idxs.map fun i => xs.getD i d) := by
    unfold selection
    rw [show stack_list (StackVal.tup xs) = xs from rfl,
        select_items_eq_map d idxs xs hmem]
  refine ⟨?_, ?_⟩
  · cases idxs with
    | nil => exact absurd rfl h1
    | cons a as => rfl
  · unfold selectApply
    by_cases hm : maxIdx idxs + 1 = 1
    · rw [if_neg (not_not_intro hm)]
      exact hsel
    · rw [if_pos hm]
      show (if xs.length ≠ maxIdx idxs + 1 then Except.error SelectErr.inputLength
            else selection idxs (StackVal.tup xs)) = _
      rw [if_neg (not_not_intro h2)]
      exact hsel

/-- Claim C5, witness: `Select([0, 1, 0, 1])` on the exact-width tuple
`(10, 20)` declares arities `(2, 4)` and yields `(10, 20, 10, 20)`. -/
theorem select_apply_exact_arity_witness :
    mkSelect [0, 1, 0, 1] = some (maxIdx [0, 1, 0, 1] + 1, [0, 1, 0, 1].length)
  ∧ selectApply [0, 1, 0, 1] (maxIdx [0, 1, 0, 1] + 1)
      (StackVal.tup [(10 : Nat), 20])
      = Except.ok ([0, 1, 0, 1].map fun i => [(10 : Nat), 20].getD i 0) :=
  select_apply_exact_arity [0, 1, 0, 1] [(10 : Nat), 20] 0 (by simp) (by decide)

/-- The `_n_inputs_n_outputs` loop, re-expressed as the claim's fold over
`(running_total, running_max)` started at `(t, m)`. -/
theorem n_in_out_go_eq_foldl {V W S R : Type} (ls : List (SLayer V W S R)) :
    ∀ m t : Int,
      n_inputs_n_outputs_go ls m t
        = ((ls.foldl
              (fun tm L =>
                let t' := tm.1 + (L.n_in : Int)
                (t' - (L.n_out : Int), max tm.2 t'))
              (t, m)).2,
           (ls.foldl
              (fun tm L =>
                let t' := tm.1 + (L.n_in : Int)
                (t' - (L.n_out : Int), max tm.2 t'))
              (t, m)).2
             - (ls.foldl
                  (fun tm L =>
                    let t' := tm.1 + (L.n_in : Int)
                    (t' - (L.n_out : Int), max tm.2 t'))
                  (t, m)).1) := by
  induction ls with
  | nil => intro m t; rfl
  | cons L ls ih =>
    intro m t
    rw [n_inputs_n_outputs_go, ih]
    rfl

/-- Both results of the `_n_inputs_n_outputs` loop are non-negative whenever
the running maximum dominates the running total. -/
theorem n_in_out_go_nonneg {V W S R : Type} (ls : List (SLayer V W S R)) :
    ∀ m t : Int, 0 ≤ m → t ≤ m →
      0 ≤ (n_inputs_n_outputs_go ls m t).1
      ∧ 0 ≤ (n_inputs_n_outputs_go ls m t).2 := by
  induction ls with
  | nil =>
    intro m t h0 h1
    exact ⟨h0, by simp [n_inputs_n_outputs_go]; omega⟩
  | cons L ls ih =>
    intro m t h0 h1
    rw [n_inputs_n_outputs_go]
    have hL : (0 : Int) ≤ (L.n_out : Int) := Int.natCast_nonneg _
    have h2 := le_max_left m (t + (L.n_in : Int))
    have h3 := le_max_right m (t + (L.n_in : Int))
    exact ih (max m (t + (L.n_in : Int))) (t + (L.n_in : Int) - (L.n_out : Int))
      (by omega) (by omega)

/-- Claim C1: a `Serial` built from a flattened non-empty sublayer list
declares exactly the arities of the stack-height simulation — its `n_in` is
the final running maximum and its `n_out` is the running maximum minus the
final running total, where the fold starts both quantities at 0, adds each
sublayer's `n_in`, takes the maximum, then subtracts its `n_out`. -/
theorem serial_arities_eq_stack_height_sim {V W S R : Type}
    (layers : List (SLayer V W S R)) (h : layers ≠ []) :
    ((mkSerial layers).n_in : Int) = (stack_height_sim layers).2
  ∧ ((mkSerial layers).n_out : Int)
      = (stack_height_sim layers).2 - (stack_height_sim layers).1 := by
  cases layers with
  | nil => exact absurd rfl h
  | cons L ls =>
    have hnn := n_in_out_go_nonneg (L :: ls) 0 0 le_rfl le_rfl
    have hgo := n_in_out_go_eq_foldl (L :: ls) 0 0
    have hin : (mkSerial (L :: ls)).n_in
        = (n_inputs_n_outputs_go (L :: ls) 0 0).1.toNat := rfl
    have hout : (mkSerial (L :: ls)).n_out
        = (n_inputs_n_outputs_go (L :: ls) 0 0).2.toNat := rfl
    have hsim : stack_height_sim (L :: ls)
        = (L :: ls).foldl
            (fun tm L =>
              let t' := tm.1 + (L.n_in : Int)
              (t' - (L.n_out : Int), max tm.2 t'))
            (0, 0) := rfl
    constructor
    · rw [hin, Int.toNat_of_nonneg hnn.1, hgo, hsim]
    · rw [hout, Int.toNat_of_nonneg hnn.2, hgo, hsim]

/-- Claim C1, witness: the two-sublayer list `[2→1, 0→1]` is non-empty and
its declared arities match the simulation (`n_in = 2`, `n_out = 2`). -/
theorem serial_arities_witness :
    ([dummyLayer 2 1, dummyLayer 0 1] ≠ ([] : List (SLayer Nat Nat Nat Nat)))
  ∧ (((mkSerial [dummyLayer 2 1, dummyLayer 0 1]).n_in : Int)
      = (stack_height_sim [dummyLayer 2 1, dummyLayer 0 1]).2
    ∧ ((mkSerial [dummyLayer 2 1, dummyLayer 0 1]).n_out : Int)
      = (stack_height_sim [dummyLayer 2 1, dummyLayer 0 1]).2
        - (stack_height_sim [dummyLayer 2 1, dummyLayer 0 1]).1) :=
  ⟨by simp,
   serial_arities_eq_stack_height_sim [dummyLayer 2 1, dummyLayer 0 1]
     (by simp)⟩

/-- The function `mkSerial` always stores the given (already flattened) sublayer list. -/
theorem mkSerial_sublayers {V W S R : Type} (layers : List (SLayer V W S R)) :
    (mkSerial layers).sublayers = layers := by
  cases layers <;> rfl

/-- Input validation can only raise the input-type and input-arity errors,
never the weight- or state-length errors. -/
theorem serial_validate_only_input_errors {V : Type} (n : Nat)
    (xs : StackVal V) :
    serial_validate_inputs n xs ≠ some SerialErr.weightsLength
  ∧ serial_validate_inputs n xs ≠ some SerialErr.stateLength := by
  cases xs <;> simp only [serial_validate_inputs] <;> split_ifs <;> simp

/-- The sublayer loop of `Serial.forward_with_state` can only fail with
`stackFault`: the length errors are raised before the loop. -/
theorem serialGo_error_eq_stackFault {V W S R : Type} :
    ∀ (ls : List (SLayer V W S R)) (ws : List W) (ss : List S) (rs : List R)
      (stack : StackVal V) (e : SerialErr),
      serialGo ls ws ss rs stack = Except.error e →
      e = SerialErr.stackFault := by
  intro ls
  induction ls with
  | nil => intro ws ss rs stack e h; simp [serialGo] at h
  | cons L ls ih =>
    intro ws ss rs stack e h
    cases ws with
    | nil => simp [serialGo] at h
    | cons w ws =>
      cases ss with
      | nil => simp [serialGo] at h
      | cons s ss =>
        cases rs with
        | nil => simp [serialGo] at h
        | cons r rs =>
          rw [serialGo] at h
          cases hstep : serialStep L w s r stack with
          | none =>
            rw [hstep] at h
            simp at h
            exact h.symm
          | some p =>
            obtain ⟨stack2, s2⟩ := p
            rw [hstep] at h
            have h2 : (match serialGo ls ws ss rs stack2 with
                | Except.error e => Except.error e
                | Except.ok (stackF, sts) =>
                    Except.ok (stackF, s2 :: sts)) = Except.error e := h
            cases hrec : serialGo ls ws ss rs stack2 with
            | error e2 =>
              rw [hrec] at h2
              simp at h2
              exact h2 ▸ ih ws ss rs stack2 e2 hrec
            | ok q =>
              obtain ⟨stackF, sts⟩ := q
              rw [hrec] at h2
              simp at h2

/-- The sublayer loop never raises the weight- or state-length errors. -/
theorem serialGo_no_length_error {V W S R : Type}
    (ls : List (SLayer V W S R)) (ws : List W) (ss : List S) (rs : List R)
    (stack : StackVal V) :
    serialGo ls ws ss rs stack ≠ Except.error SerialErr.weightsLength
  ∧ serialGo ls ws ss rs stack ≠ Except.error SerialErr.stateLength := by
  constructor <;> intro hc <;>
    exact SerialErr.noConfusion (serialGo_error_eq_stackFault ls ws ss rs stack _ hc)

/-- Claim C8: with more than one sublayer, a weights or state sequence whose
length differs from the sublayer count makes `Serial.forward_with_state`
raise a `ValueError` (first two conjuncts); with exactly one sublayer the
length checks are skipped entirely, so no such error can arise no matter the
weights/state lengths (third conjunct). -/
theorem serial_length_mismatch_fatal {V W S R : Type}
    (layers : List (SLayer V W S R)) (l : List V) (ws : List W) (ss : List S)
    (rs : List R) :
    (2 ≤ layers.length → (mkSerial layers).n_in ≤ l.length →
      ws.length ≠ layers.length →
      serial_forward_with_state (mkSerial layers) (StackVal.tup l) ws ss rs
        = Except.error SerialErr.weightsLength)
  ∧ (2 ≤ layers.length → (mkSerial layers).n_in ≤ l.length →
      ws.length = layers.length → ss.length ≠ layers.length →
      serial_forward_with_state (mkSerial layers) (StackVal.tup l) ws ss rs
        = Except.error SerialErr.stateLength)
  ∧ (layers.length = 1 →
      serial_forward_with_state (mkSerial layers) (StackVal.tup l) ws ss rs
        ≠ Except.error SerialErr.weightsLength
      ∧ serial_forward_with_state (mkSerial layers) (StackVal.tup l) ws ss rs
        ≠ Except.error SerialErr.stateLength) := by
  refine ⟨?_, ?_, ?_⟩
  · intro h2 hlen hw
    have hv : serial_validate_inputs (mkSerial layers).n_in (StackVal.tup l)
        = none := by
      simp only [serial_validate_inputs]
      rw [if_neg (by omega)]
    cases layers with
    | nil => simp at h2
    | cons L ls =>
      rw [serial_forward_with_state, mkSerial_sublayers, hv]
      show (if (L :: ls).length ≠ 1 ∧ ws.length ≠ (L :: ls).length then
              Except.error SerialErr.weightsLength
            else if (L :: ls).length ≠ 1 ∧ ss.length ≠ (L :: ls).length then
              Except.error SerialErr.stateLength
            else serialGo (L :: ls) ws ss rs (StackVal.tup l))
          = Except.error SerialErr.weightsLength
      rw [if_pos ⟨by simp only [List.length_cons] at h2 ⊢; omega, hw⟩]
  · intro h2 hlen hw hs
    have hv : serial_validate_inputs (mkSerial layers).n_in (StackVal.tup l)
        = none := by
      simp only [serial_validate_inputs]
      rw [if_neg (by omega)]
    cases layers with
    | nil => simp at h2
    | cons L ls =>
      rw [serial_forward_with_state, mkSerial_sublayers, hv]
      show (if (L :: ls).length ≠ 1 ∧ ws.length ≠ (L :: ls).length then
              Except.error SerialErr.weightsLength
            else if (L :: ls).length ≠ 1 ∧ ss.length ≠ (L :: ls).length then
              Except.error SerialErr.stateLength
            else serialGo (L :: ls) ws ss rs (StackVal.tup l))
          = Except.error SerialErr.stateLength
      rw [if_neg (fun hc => hc.2 hw)]
      rw [if_pos ⟨by simp only [List.length_cons] at h2 ⊢; omega, hs⟩]
  · intro h1
    obtain ⟨L, rfl⟩ : ∃ L, layers = [L] := by
      cases layers with
      | nil => simp at h1
      | cons L ls =>
        cases ls with
        | nil => exact ⟨L, rfl⟩
        | cons L2 ls2 => simp at h1
    rw [serial_forward_with_state]
    cases hv : serial_validate_inputs (mkSerial [L]).n_in (StackVal.tup l) with
    | some e =>
      have he := serial_validate_only_input_errors
        (mkSerial [L]).n_in (StackVal.tup l)
      rw [hv] at he
      constructor <;> intro hc <;> simp only [] at hc
      · exact he.1 (by rw [Except.error.injEq] at hc; rw [hc])
      · exact he.2 (by rw [Except.error.injEq] at hc; rw [hc])
    | none =>
      rw [mkSerial_sublayers]
      show serialGo [L] ws ss rs (StackVal.tup l)
          ≠ Except.error SerialErr.weightsLength
        ∧ serialGo [L] ws ss rs (StackVal.tup l)
          ≠ Except.error SerialErr.stateLength
      exact serialGo_no_length_error [L] ws ss rs (StackVal.tup l)

/-- Claim C8, witness: with two sublayers and an empty weights list the
weight-length `ValueError` is raised; with one sublayer no length error can
arise even with an empty weights list. -/
theorem serial_length_mismatch_fatal_witness :
    serial_forward_with_state (mkSerial [dummyLayer 1 1, dummyLayer 1 1])
        (StackVal.tup [5]) ([] : List Nat) [0, 0] [0, 0]
      = Except.error SerialErr.weightsLength
  ∧ (serial_forward_with_state (mkSerial [dummyLayer 1 1])
        (StackVal.tup [5]) ([] : List Nat) [0] [0]
      ≠ Except.error SerialErr.weightsLength
    ∧ serial_forward_with_state (mkSerial [dummyLayer 1 1])
        (StackVal.tup [5]) ([] : List Nat) [0] [0]
      ≠ Except.error SerialErr.stateLength) :=
  ⟨(serial_length_mismatch_fatal [dummyLayer 1 1, dummyLayer 1 1] [5] [] [0, 0]
      [0, 0]).1 (by decide) (by decide) (by decide),
   (serial_length_mismatch_fatal [dummyLayer 1 1] [5] [] [0] [0]).2.2
     (by decide)⟩

/-- A successful positional lookup pins down the one-element take of the
corresponding drop. -/
theorem drop_take_one_of_get? {V : Type} :
    ∀ (l : List V) (n : Nat) (v : V), l.get? n = some v →
      (l.drop n).take 1 = [v] := by
  intro l
  induction l with
  | nil => intro n v h; simp at h
  | cons a l ih =>
    intro n v h
    cases n with
    | zero => simp at h; simp [h]
    | succ n => simpa using ih n v (by simpa using h)

/-- Python `_allot_to_sublayers` computes exactly the claim's contiguous-span
partition whenever every sublayer consumes at least one input and the input
tuple is long enough. -/
theorem allot_from_eq_span_partition {V W S R : Type} :
    ∀ (layers : List (SLayer V W S R)) (inputs : List V) (start : Nat),
      (∀ L ∈ layers, 1 ≤ L.n_in) →
      start + sum_n_in layers ≤ inputs.length →
      allot_from layers inputs start
        = some (span_partition layers (inputs.drop start)) := by
  intro layers
  induction layers with
  | nil => intro inputs start h1 h2; rfl
  | cons L ls ih =>
    intro inputs start h1 h2
    have hsum : start + (L.n_in + sum_n_in ls) ≤ inputs.length := by
      simpa [sum_n_in] using h2
    have hpos : 1 ≤ L.n_in := h1 L (List.mem_cons_self L ls)
    have hlt : start < inputs.length := by omega
    have hpiece :
        (if L.n_in = 1 then (inputs.get? start).map StackVal.single
         else some (StackVal.tup ((inputs.drop start).take L.n_in)))
        = some (packIn L.n_in ((inputs.drop start).take L.n_in)) := by
      by_cases hn : L.n_in = 1
      · obtain ⟨v, hv⟩ : ∃ v, inputs.get? start = some v := by
          rw [List.get?_eq_get hlt]
          exact ⟨_, rfl⟩
        rw [if_pos hn, hv, hn, drop_take_one_of_get? inputs start v hv]
        rfl
      · rw [if_neg hn]
        simp [packIn, hn]
    have hrec : allot_from ls inputs (start + L.n_in)
        = some (span_partition ls ((inputs.drop start).drop L.n_in)) := by
      rw [List.drop_drop]
      exact ih inputs (start + L.n_in)
        (fun x hx => h1 x (List.mem_cons_of_mem L hx)) (by omega)
    rw [allot_from, hpiece, hrec]
    rfl

/-- For a contract-honouring output, the append/extend choice collects
exactly the output's elements. -/
theorem out_items_of_packaged {V : Type} {n : Nat} {sv : StackVal V}
    (h : packagedAs n sv) : out_items n sv = some (stack_list sv) := by
  by_cases hn : n = 1
  · rw [packagedAs, if_pos hn] at h
    obtain ⟨v, rfl⟩ := h
    simp [out_items, stack_list, hn]
  · rw [packagedAs, if_neg hn] at h
    obtain ⟨l, rfl, hlen⟩ := h
    simp [out_items, stack_list, hn]

/-- A contract-honouring output holds exactly `n_out` elements. -/
theorem stack_list_length_of_packaged {V : Type} {n : Nat} {sv : StackVal V}
    (h : packagedAs n sv) : (stack_list sv).length = n := by
  by_cases hn : n = 1
  · rw [packagedAs, if_pos hn] at h
    obtain ⟨v, rfl⟩ := h
    simp [stack_list, hn]
  · rw [packagedAs, if_neg hn] at h
    obtain ⟨l, rfl, hlen⟩ := h
    simpa [stack_list] using hlen

/-- On the span partition, the `Parallel` collection loop computes exactly
the claim's independent-application-and-concatenation. -/
theorem parLoop_eq_claimed {V W S R : Type} :
    ∀ (layers : List (SLayer V W S R)) (inputs : List V) (ws : List W)
      (ss : List S) (rs : List R),
      (∀ L ∈ layers, HonestLayer L) →
      ws.length = layers.length → ss.length = layers.length →
      rs.length = layers.length →
      parLoop layers (span_partition layers inputs) ws ss rs
        = some (parallel_claimed_apply layers inputs ws ss rs) := by
  intro layers
  induction layers with
  | nil => intro inputs ws ss rs _ hw hs hr; rfl
  | cons L ls ih =>
    intro inputs ws ss rs hhon hw hs hr
    cases ws with
    | nil => simp at hw
    | cons w ws =>
      cases ss with
      | nil => simp at hs
      | cons s ss =>
        cases rs with
        | nil => simp at hr
        | cons r rs =>
          have hout := out_items_of_packaged
            (hhon L (List.mem_cons_self L ls)
              (packIn L.n_in (inputs.take L.n_in)) w s r)
          have hrec := ih (inputs.drop L.n_in) ws ss rs
            (fun x hx => hhon x (List.mem_cons_of_mem L hx))
            (by simpa using hw) (by simpa using hs) (by simpa using hr)
          rw [span_partition, parLoop, hout, hrec]
          rfl

/-- The span partition has one span per sublayer. -/
theorem span_partition_length {V W S R : Type} :
    ∀ (layers : List (SLayer V W S R)) (inputs : List V),
      (span_partition layers inputs).length = layers.length := by
  intro layers
  induction layers with
  | nil => intro inputs; rfl
  | cons L ls ih => intro inputs; simp [span_partition, ih]

/-- The claim-side concatenated outputs of honest sublayers have exactly
`sum n_out` elements. -/
theorem claimed_fst_length {V W S R : Type} :
    ∀ (layers : List (SLayer V W S R)) (inputs : List V) (ws : List W)
      (ss : List S) (rs : List R),
      (∀ L ∈ layers, HonestLayer L) →
      ws.length = layers.length → ss.length = layers.length →
      rs.length = layers.length →
      (parallel_claimed_apply layers inputs ws ss rs).1.length
        = sum_n_out layers := by
  intro layers
  induction layers with
  | nil => intro inputs ws ss rs _ hw hs hr; rfl
  | cons L ls ih =>
    intro inputs ws ss rs hhon hw hs hr
    cases ws with
    | nil => simp at hw
    | cons w ws =>
      cases ss with
      | nil => simp at hs
      | cons s ss =>
        cases rs with
        | nil => simp at hr
        | cons r rs =>
          have hlen := stack_list_length_of_packaged
            (hhon L (List.mem_cons_self L ls)
              (packIn L.n_in (inputs.take L.n_in)) w s r)
          have hrec := ih (inputs.drop L.n_in) ws ss rs
            (fun x hx => hhon x (List.mem_cons_of_mem L hx))
            (by simpa using hw) (by simpa using hs) (by simpa using hr)
          simp [parallel_claimed_apply, sum_n_out, hlen, hrec]

/-- With every sublayer consuming at least one input, the `n_in = 0`
construction check passes. -/
theorem any_nin_zero_false {V W S R : Type} (layers : List (SLayer V W S R))
    (h : ∀ L ∈ layers, 1 ≤ L.n_in) :
    layers.any (fun L => L.n_in == 0) = false := by
  induction layers with
  | nil => rfl
  | cons L ls ih =>
    have h0 : L.n_in ≠ 0 := by
      have := h L (List.mem_cons_self L ls)
      omega
    simp [List.any_cons, h0,
          ih (fun x hx => h x (List.mem_cons_of_mem L hx))]

/-- Claim C2: a valid `Parallel` (at least two sublayers, each consuming at
least one input, each honouring the packaging contract) declares
`n_in`/`n_out` as the sums of its sublayers' arities, and its forward pass
on an exact-width input tuple equals the claim's computation: partition the
inputs into contiguous spans by `n_in` (width-1 spans bare), apply each
sublayer independently to its span with its own weight/state/rng slot, and
concatenate the outputs in sublayer order, packaging the concatenated whole
by the 0/1/>1 rule. -/
theorem parallel_partition_concat_correct {V W S R : Type}
    (layers : List (SLayer V W S R)) (inputs : List V) (ws : List W)
    (ss : List S) (rs : List R)
    (h2 : 2 ≤ layers.length) (hpos : ∀ L ∈ layers, 1 ≤ L.n_in)
    (hhon : ∀ L ∈ layers, HonestLayer L)
    (hin : inputs.length = sum_n_in layers)
    (hw : ws.length = layers.length) (hs : ss.length = layers.length)
    (hr : rs.length = layers.length) :
    mkParallel layers
      = Except.ok { sublayers := layers, n_in := sum_n_in layers,
                    n_out := sum_n_out layers }
  ∧ parallel_forward_with_state layers inputs ws ss rs
      = some (packIn (sum_n_out layers)
                (parallel_claimed_apply layers inputs ws ss rs).1,
              (parallel_claimed_apply layers inputs ws ss rs).2) := by
  constructor
  · have hany := any_nin_zero_false layers hpos
    rw [mkParallel, if_neg (by omega)]
    simp [hany]
  · have hallot := allot_from_eq_span_partition layers inputs 0 hpos (by omega)
    rw [List.drop_zero] at hallot
    have hloop := parLoop_eq_claimed layers inputs ws ss rs hhon hw hs hr
    have hclen := claimed_fst_length layers inputs ws ss rs hhon hw hs hr
    rw [parallel_forward_with_state, hallot]
    show (if (span_partition layers inputs).length = layers.length
            ∧ ws.length = layers.length ∧ ss.length = layers.length
            ∧ rs.length = layers.length then
          match parLoop layers (span_partition layers inputs) ws ss rs with
          | none => none
          | some (outs, sts) =>
            if sum_n_out layers = 1 then
              (outs.head?).map (fun v => (StackVal.single v, sts))
            else some (StackVal.tup outs, sts)
          else none)
        = _
    rw [if_pos ⟨span_partition_length layers inputs, hw, hs, hr⟩, hloop]
    by_cases hout : sum_n_out layers = 1
    · obtain ⟨v, hv⟩ :
          ∃ v, (parallel_claimed_apply layers inputs ws ss rs).1 = [v] :=
        List.length_eq_one.mp (hclen.trans hout)
      show (if sum_n_out layers = 1 then _ else _) = _
      rw [if_pos hout, hv, hout]
      rfl
    · show (if sum_n_out layers = 1 then _ else _) = _
      rw [if_neg hout]
      simp [packIn, hout]

/-- Claim C2, witness: `Parallel(honestOne, honestTwo)` on the 3-tuple
`(3, 4, 5)` with per-sublayer weight/state/rng slots. -/
theorem parallel_partition_concat_witness :
    mkParallel [honestOne, honestTwo]
      = Except.ok { sublayers := [honestOne, honestTwo],
                    n_in := sum_n_in [honestOne, honestTwo],
                    n_out := sum_n_out [honestOne, honestTwo] }
  ∧ parallel_forward_with_state [honestOne, honestTwo] [3, 4, 5] [10, 20]
        [0, 0] [0, 0]
      = some (packIn (sum_n_out [honestOne, honestTwo])
                (parallel_claimed_apply [honestOne, honestTwo] [3, 4, 5]
                  [10, 20] [0, 0] [0, 0]).1,
              (parallel_claimed_apply [honestOne, honestTwo] [3, 4, 5]
                [10, 20] [0, 0] [0, 0]).2) :=
  parallel_partition_concat_correct [honestOne, honestTwo] [3, 4, 5] [10, 20]
    [0, 0] [0, 0] (by decide) (by decide)
    (by
      intro L hL
      rcases List.mem_cons.mp hL with h | h
      · subst h
        intro x w s r
        exact ⟨count_items x + w, rfl⟩
      · rcases List.mem_cons.mp h with h | h
        · subst h
          intro x w s r
          exact ⟨[w, count_items x], rfl, rfl⟩
        · simp at h)
    (by decide) (by decide) (by decide) (by decide)

end Trax
